import Mathlib

set_option autoImplicit false

/-!
Verification of the xattr core (`src/sys/linux_macos.rs`): the attribute-name
iterator `XAttrs`, the growable-buffer retry primitive, the handle- and
path-based accessors, and the macOS empty-probe shim.  Bytes are modelled as
`Nat` (NUL is `0`); buffers are `List Nat`.
-/

/-! ## Attribute-name iterator (embedding of `XAttrs`) -/

/-- Embedding of the `XAttrs` struct: an owned byte buffer holding the packed
NUL-terminated name list, plus a read cursor. -/
structure XAttrs where
  data : List Nat
  offset : Nat
deriving DecidableEq

/-- Embedding of Rust's `Iterator::position` on a byte slice: index of the
first element satisfying `p`, or `none`. -/
def position (p : Nat → Bool) : List Nat → Option Nat
  | [] => none
  | b :: rest => if p b then some 0 else (position p rest).map (· + 1)

/-- Embedding of `Clone::clone` for `XAttrs`: a fresh copy of the buffer
(`Vec::from(&*self.data).into_boxed_slice()`) with the same cursor.  In the
pure model a deep copy is the identical value. -/
def XAttrs.clone (x : XAttrs) : XAttrs :=
  { data := x.data, offset := x.offset }

/-- Embedding of `Clone::clone_from` for `XAttrs` as written in the source:
the cursor is taken from `other`, the old buffer is taken back out of `self`
(`mem::replace(..).into_vec()`) and `other`'s bytes are appended to it with
`extend`; the concatenation becomes the new buffer. -/
def XAttrs.clone_from (x other : XAttrs) : XAttrs :=
  { data := x.data ++ other.data, offset := other.offset }

/-- Embedding of `Iterator::next` for `XAttrs`.  The outer `Option` models
panic: `none` is the `unwrap` panic on a missing terminator; `some (o, y)`
is a normal return of item `o` with successor state `y`. -/
def XAttrs.next (x : XAttrs) : Option (Option (List Nat) × XAttrs) :=
  if (x.data.drop x.offset).isEmpty then
    some (none, x)
  else
    match position (fun b => b == 0) (x.data.drop x.offset) with
    | none => none
    | some e =>
      some (some ((x.data.drop x.offset).take e),
        { data := x.data, offset := x.offset + e + 1 })

/-- Embedding of `Iterator::size_hint` for `XAttrs`. -/
def XAttrs.size_hint (x : XAttrs) : Nat × Option Nat :=
  if x.data.length = x.offset then (0, some 0) else (1, none)

/-- Embedding of the `XAttrs` value built by `list_fd` / `list_path`: the
fetched buffer with the cursor at zero. -/
def list_fd_result (vec : List Nat) : XAttrs :=
  { data := vec, offset := 0 }

/-- Well-formed packed name list, as the kernel guarantees it: a
concatenation of NUL-terminated names (each name free of interior NUL). -/
inductive WFList : List Nat → Prop
  | nil : WFList []
  | cons (name rest : List Nat) : (0 : Nat) ∉ name → WFList rest →
      WFList (name ++ 0 :: rest)

/-- Remaining names produced by repeatedly calling `next`, with fuel;
iteration stops at end-of-sequence or panic. -/
def remNamesAux : Nat → XAttrs → List (List Nat)
  | 0, _ => []
  | fuel + 1, x =>
    match x.next with
    | some (some name, y) => name :: remNamesAux fuel y
    | _ => []

/-- Remaining names of an iterator state; the buffer length bounds the number
of names, so `length + 1` fuel is always enough. -/
def XAttrs.remNames (x : XAttrs) : List (List Nat) :=
  remNamesAux (x.data.length + 1) x

/-- Advance an iterator state by `k` successful `next` calls (stopping early
at end-of-sequence or panic). -/
def advanceN : Nat → XAttrs → XAttrs
  | 0, x => x
  | k + 1, x =>
    match x.next with
    | some (some _, y) => advanceN k y
    | _ => x

/-- Position `t` is the first NUL of `data` at or after `offset`. -/
def firstNulFrom (data : List Nat) (offset t : Nat) : Prop :=
  offset ≤ t ∧ t < data.length ∧ data.getD t 1 = 0 ∧
    ∀ j, offset ≤ j → j < t → data.getD j 1 ≠ 0

/-! ## Growable-buffer retry primitive -/

/-- Modelled from the spec: one invocation of the size-fallible operation
handed to `crate::util::allocate_loop` (the util module is not part of
`src/`).  It reports a byte count, a buffer-too-small failure, or another OS
error. -/
inductive CallResult where
  | ok (count : Nat)
  | tooSmall
  | fail (e : Nat)
deriving DecidableEq

/-- Modelled from the spec: outcome of the retry primitive — a final byte
count, a propagated OS error, or the library-level could-not-size-buffer
error. -/
inductive LoopResult where
  | success (count : Nat)
  | osError (e : Nat)
  | sizeError
deriving DecidableEq

/-- Modelled from the spec: the hard ceiling bounding buffer growth.  The
spec fixes no numeric value; we pick 2^31 bytes. -/
def HARD_CEILING : Nat := 2147483648

/-- Modelled from the spec: capacity doubling for a retry; a zero-length
probe grows to one byte so that growth is strictly increasing. -/
def grow (c : Nat) : Nat := max 1 (2 * c)

/-- Modelled from the spec: the body of `crate::util::allocate_loop` (absent
from `src/`), fuelled.  State is the call index `k` and current capacity `c`.
A call reporting a count strictly below capacity (or a zero count on the
zero-length probe) succeeds; a probe reporting a non-zero exact size
reallocates to that size and calls once more; a buffer-too-small failure, or
a count meeting capacity on a non-empty buffer (truncation signal), doubles
the capacity; once capacity exceeds the hard ceiling the loop fails with the
sizing error.  `none` is fuel exhaustion, proved unreachable below. -/
def allocLoopAux (op : Nat → Nat → CallResult) : Nat → Nat → Nat → Option LoopResult
  | 0, _, c =>
    if HARD_CEILING < c then some LoopResult.sizeError else none
  | fuel + 1, k, c =>
    if HARD_CEILING < c then some LoopResult.sizeError
    else
      match op k c with
      | CallResult.fail e => some (LoopResult.osError e)
      | CallResult.tooSmall => allocLoopAux op fuel (k + 1) (grow c)
      | CallResult.ok s =>
        if s < c then some (LoopResult.success s)
        else if c = 0 then
          if s = 0 then some (LoopResult.success 0)
          else allocLoopAux op fuel (k + 1) s
        else allocLoopAux op fuel (k + 1) (grow c)

/-- Modelled from the spec: `crate::util::allocate_loop`, started on the
zero-length probe with enough fuel for the whole capacity range. -/
def allocate_loop (op : Nat → Nat → CallResult) : Option LoopResult :=
  allocLoopAux op (HARD_CEILING + 1) 0 0

/-! ## OS xattr store (for the accessor round-trip claims) -/

/-- Modelled from the spec: the OS-level extended-attribute store behind
`rustix::fs` (`fgetxattr`/`fsetxattr`/`fremovexattr` and their `l`-variants),
which lives outside `src/`: a partial map from attribute names to values,
both raw byte strings. -/
abbrev XStore := List Nat → Option (List Nat)

/-- Modelled from the spec: errors surfaced by the accessors — the OS
not-found error for an absent name, or another OS error, propagated
verbatim. -/
inductive XErr where
  | notFound
  | other (e : Nat)
deriving DecidableEq

/-- Modelled from the spec: `set_fd` / `set_path` on a store, create-or-replace
semantics, successful case. -/
def set_fd (s : XStore) (name v : List Nat) : XStore :=
  fun n => if n = name then some v else s n

/-- Modelled from the spec: `get_fd` / `get_path` on a store: the stored value
verbatim (the retry loop is size-transparent), or NotFound when absent. -/
def get_fd (s : XStore) (name : List Nat) : Except XErr (List Nat) :=
  match s name with
  | some v => Except.ok v
  | none => Except.error XErr.notFound

/-- Modelled from the spec: `remove_fd` / `remove_path` on a store: the store
without the name when present, or NotFound when absent. -/
def remove_fd (s : XStore) (name : List Nat) : Except XErr XStore :=
  match s name with
  | some _ => Except.ok (fun n => if n = name then none else s n)
  | none => Except.error XErr.notFound

/-! ## Raw-call structure of the accessors -/

/-- Raw OS calls the accessors can issue, tagged with the argument shape the
source passes (buffer length; for the macOS direct call, whether the buffer
pointer is null and whether `XATTR_NOFOLLOW` is set). -/
inductive RawCall where
  | getxattr_direct (nullBuffer : Bool) (size : Nat) (noFollow : Bool)
  | lgetxattr (bufLen : Nat)
  | lsetxattr
  | lremovexattr
  | llistxattr (bufLen : Nat)
  | fgetxattr (bufLen : Nat)
  | fsetxattr
  | fremovexattr
  | flistxattr (bufLen : Nat)
deriving DecidableEq

/-- Modelled from the spec: whether a raw call resolves symbolic links.  The
`l`-variants never follow; the macOS direct `getxattr` follows unless the
no-follow flag is set; descriptor calls have no link to resolve. -/
def follows_symlinks : RawCall → Bool
  | RawCall.getxattr_direct _ _ noFollow => !noFollow
  | _ => false

/-- Raw call issued by one iteration of the closure inside `get_path`, as a
function of the platform (`macos`) and the buffer length: on macOS with an
empty buffer, the direct size-only `libc::getxattr` with null buffer, zero
length and `XATTR_NOFOLLOW`; otherwise `lgetxattr`. -/
def get_path_step_call (macos : Bool) (bufLen : Nat) : RawCall :=
  if macos && bufLen == 0 then RawCall.getxattr_direct true 0 true
  else RawCall.lgetxattr bufLen

/-- Result of one iteration of the closure inside `get_path`: in the macOS
empty-buffer branch, a negative direct-call return yields the OS error
(`errno`) and a non-negative one yields `ret as usize`; every other
platform or buffer length passes through the `lgetxattr` result. -/
def get_path_step (macos : Bool) (directRet : Int) (errno : Nat)
    (lgetRes : Except XErr Nat) (bufLen : Nat) : Except XErr Nat :=
  if macos && bufLen == 0 then
    if directRet < 0 then Except.error (XErr.other errno)
    else Except.ok directRet.toNat
  else lgetRes

/-- Raw call issued by `set_path`: unconditionally `lsetxattr`, on every
platform. -/
def set_path_call (_macos : Bool) : RawCall := RawCall.lsetxattr

/-- Raw call issued by `remove_path`: unconditionally `lremovexattr`. -/
def remove_path_call (_macos : Bool) : RawCall := RawCall.lremovexattr

/-- Raw call issued by one iteration of the closure inside `list_path`:
unconditionally `llistxattr`. -/
def list_path_step_call (_macos : Bool) (bufLen : Nat) : RawCall :=
  RawCall.llistxattr bufLen

/-- Raw call issued by one iteration of the closure inside `get_fd`:
unconditionally `fgetxattr`. -/
def get_fd_step_call (_macos : Bool) (bufLen : Nat) : RawCall :=
  RawCall.fgetxattr bufLen

/-- Raw call issued by `set_fd`: unconditionally `fsetxattr`. -/
def set_fd_call (_macos : Bool) : RawCall := RawCall.fsetxattr

/-- Raw call issued by `remove_fd`: unconditionally `fremovexattr`. -/
def remove_fd_call (_macos : Bool) : RawCall := RawCall.fremovexattr

/-- Raw call issued by one iteration of the closure inside `list_fd`:
unconditionally `flistxattr`. -/
def list_fd_step_call (_macos : Bool) (bufLen : Nat) : RawCall :=
  RawCall.flistxattr bufLen

/-! ## Helper lemmas -/

theorem position_isSome_of_mem (p : Nat → Bool) (l : List Nat) (b : Nat)
    (hb : b ∈ l) (hp : p b = true) : (position p l).isSome = true := by
  induction l with
  | nil => cases hb
  | cons a as ih =>
    rcases List.mem_cons.mp hb with h | h
    · subst h
      simp [position, hp]
    · cases hpa : p a with
      | true => simp [position, hpa]
      | false =>
        have := ih h
        cases hrec : position p as with
        | none => rw [hrec] at this; simp at this
        | some j => simp [position, hpa, hrec]

theorem position_lt_length (p : Nat → Bool) (l : List Nat) :
    ∀ i, position p l = some i → i < l.length := by
  induction l with
  | nil => intro i h; simp [position] at h
  | cons a as ih =>
    intro i h
    rw [position] at h
    cases hpa : p a with
    | true =>
      rw [hpa] at h
      simp at h
      subst h
      simp
    | false =>
      rw [hpa] at h
      simp at h
      obtain ⟨j, hj, hji⟩ := h
      have := ih j hj
      simp only [List.length_cons]
      omega

theorem position_eq_some_first (p : Nat → Bool) (l : List Nat) :
    ∀ i, i < l.length → p (l.getD i 1) = true →
      (∀ j, j < i → p (l.getD j 1) = false) → position p l = some i := by
  induction l with
  | nil => intro i h1; simp at h1
  | cons a as ih =>
    intro i h1 h2 h3
    cases i with
    | zero =>
      have ha : p a = true := h2
      simp [position, ha]
    | succ i =>
      have ha : p a = false := h3 0 (Nat.succ_pos i)
      have h1' : i < as.length := by simp at h1; omega
      have h2' : p (as.getD i 1) = true := h2
      have h3' : ∀ j, j < i → p (as.getD j 1) = false := by
        intro j hj
        exact h3 (j + 1) (by omega)
      rw [position, ha]
      simp [ih i h1' h2' h3']

theorem drop_getD (l : List Nat) : ∀ (n i d : Nat),
    (l.drop n).getD i d = l.getD (n + i) d := by
  induction l with
  | nil => intro n i d; simp
  | cons a as ih =>
    intro n i d
    cases n with
    | zero => simp
    | succ m =>
      show (as.drop m).getD i d = (a :: as).getD (m + 1 + i) d
      rw [ih m i d]
      have : m + 1 + i = (m + i) + 1 := by omega
      rw [this]
      rfl

theorem grow_ge (c : Nat) : c + 1 ≤ grow c := by
  unfold grow
  rcases Nat.eq_zero_or_pos c with h | h
  · subst h; decide
  · rw [Nat.max_eq_right (by omega)]
    omega

theorem allocLoopAux_isSome (op : Nat → Nat → CallResult) :
    ∀ (fuel k c : Nat), HARD_CEILING + 1 ≤ c + fuel →
      (allocLoopAux op fuel k c).isSome = true := by
  intro fuel
  induction fuel with
  | zero =>
    intro k c h
    have hc : HARD_CEILING < c := by omega
    simp [allocLoopAux, hc]
  | succ f ih =>
    intro k c h
    by_cases hc : HARD_CEILING < c
    · simp [allocLoopAux, hc]
    · rw [allocLoopAux, if_neg hc]
      cases hop : op k c with
      | fail e => simp
      | tooSmall =>
        apply ih
        have := grow_ge c
        omega
      | ok s =>
        dsimp only
        by_cases hs : s < c
        · simp [hs]
        · rw [if_neg hs]
          by_cases hc0 : c = 0
          · rw [if_pos hc0]
            by_cases hs0 : s = 0
            · simp [hs0]
            · rw [if_neg hs0]
              apply ih
              omega
          · rw [if_neg hc0]
            apply ih
            have := grow_ge c
            omega

/-! ## Claim theorems -/

/-- C2: on state with buffer `b` and cursor `offset`, if `b[offset..]` is
empty then `next` signals end-of-sequence; otherwise, for `t` the first NUL
terminator at or after `offset`, `next` returns the owned bytes
`b[offset..t)` and advances the cursor to `t + 1`. -/
theorem xattrs_next_spec (x : XAttrs) :
    (x.data.drop x.offset = [] → x.next = some (none, x)) ∧
    (∀ t, firstNulFrom x.data x.offset t →
      x.next = some (some ((x.data.drop x.offset).take (t - x.offset)),
        { data := x.data, offset := t + 1 })) := by
  constructor
  · intro h
    simp [XAttrs.next, h]
  · intro t ht
    obtain ⟨h1, h2, h3, h4⟩ := ht
    have hlen : t - x.offset < (x.data.drop x.offset).length := by
      rw [List.length_drop]
      omega
    have hpos : position (fun b => b == 0) (x.data.drop x.offset)
        = some (t - x.offset) := by
      apply position_eq_some_first
      · exact hlen
      · rw [drop_getD]
        have he : x.offset + (t - x.offset) = t := by omega
        rw [he, h3]
        rfl
      · intro j hj
        rw [drop_getD]
        have := h4 (x.offset + j) (by omega) (by omega)
        simpa using this
    have hne : (x.data.drop x.offset).isEmpty = false := by
      cases hd : x.data.drop x.offset with
      | nil => rw [hd] at hlen; simp at hlen
      | cons a as => rfl
    have harith : x.offset + (t - x.offset) + 1 = t + 1 := by omega
    rw [XAttrs.next, hne]
    simp [hpos, harith]

/-- C2 witness: concrete evaluations of both branches of `xattrs_next_spec`
— end-of-sequence on an exhausted state, and the name `[98]` with cursor
advance past its terminator. -/
theorem xattrs_next_spec_witness :
    (XAttrs.mk [] 0).next = some (none, XAttrs.mk [] 0) ∧
    (XAttrs.mk [97, 0, 98, 0] 2).next
      = some (some [98], XAttrs.mk [97, 0, 98, 0] 4) := by
  constructor
  · exact (xattrs_next_spec (XAttrs.mk [] 0)).1 rfl
  · have hf : firstNulFrom [97, 0, 98, 0] 2 3 := by
      refine ⟨by decide, by decide, by decide, ?_⟩
      intro j hj1 hj2
      have hj : j = 2 := by omega
      subst hj
      decide
    exact (xattrs_next_spec (XAttrs.mk [97, 0, 98, 0] 2)).2 3 hf

/-- C8: on a well-formed buffer tail (the kernel's contract) `next` never
panics: the `unwrap` on the terminator search is unreachable. -/
theorem next_no_panic_of_wellformed (x : XAttrs)
    (h : WFList (x.data.drop x.offset)) : (x.next).isSome = true := by
  rw [XAttrs.next]
  generalize hl : x.data.drop x.offset = l at h ⊢
  cases h with
  | nil => simp
  | cons name rest hname hrest =>
    have hmem : (0 : Nat) ∈ name ++ 0 :: rest := by simp
    have hsome := position_isSome_of_mem (fun b => b == 0) _ 0 hmem (by simp)
    by_cases he : (name ++ 0 :: rest).isEmpty
    · simp [he]
    · simp only [he, Bool.false_eq_true, if_false]
      cases hp : position (fun b => b == 0) (name ++ 0 :: rest) with
      | none => rw [hp] at hsome; simp at hsome
      | some e => simp [hp]

/-- C8 witness: `next` on the well-formed state with buffer `[97, 0]` and
cursor `0` returns normally. -/
theorem next_no_panic_of_wellformed_witness :
    ((XAttrs.mk [97, 0] 0).next).isSome = true :=
  next_no_panic_of_wellformed (XAttrs.mk [97, 0] 0)
    (WFList.cons [97] [] (by decide) WFList.nil)

/-- C9: a freshly constructed iterator has cursor `0` (hence within the
buffer); a successful `next` keeps the buffer and keeps the cursor within
it; an end-of-sequence `next` leaves the state unchanged; and when the
cursor sits at the buffer end the sequence is exhausted: `next` signals
end-of-sequence and `size_hint` reports definitely zero remaining. -/
theorem offset_invariant :
    (∀ vec : List Nat,
      (list_fd_result vec).offset = 0 ∧
      (list_fd_result vec).offset ≤ (list_fd_result vec).data.length) ∧
    (∀ (x y : XAttrs) (name : List Nat), x.next = some (some name, y) →
      y.data = x.data ∧ y.offset ≤ y.data.length) ∧
    (∀ (x y : XAttrs), x.next = some (none, y) → y = x) ∧
    (∀ x : XAttrs, x.offset = x.data.length →
      x.next = some (none, x) ∧ x.size_hint = (0, some 0)) := by
  refine ⟨fun vec => ⟨rfl, by simp [list_fd_result]⟩, ?_, ?_, ?_⟩
  · intro x y name h
    rw [XAttrs.next] at h
    by_cases he : (x.data.drop x.offset).isEmpty
    · simp [he] at h
    · simp only [he, Bool.false_eq_true, if_false] at h
      cases hp : position (fun b => b == 0) (x.data.drop x.offset) with
      | none => rw [hp] at h; simp at h
      | some e =>
        rw [hp] at h
        simp only [Option.some.injEq, Prod.mk.injEq] at h
        obtain ⟨-, hy⟩ := h
        subst hy
        have hlt := position_lt_length _ _ e hp
        rw [List.length_drop] at hlt
        exact ⟨rfl, by simp; omega⟩
  · intro x y h
    rw [XAttrs.next] at h
    by_cases he : (x.data.drop x.offset).isEmpty
    · simp [he] at h
      exact h.symm
    · simp only [he, Bool.false_eq_true, if_false] at h
      cases hp : position (fun b => b == 0) (x.data.drop x.offset) with
      | none => rw [hp] at h; simp at h
      | some e => rw [hp] at h; simp at h
  · intro x h
    have hd : x.data.drop x.offset = [] := by
      rw [h]
      simp
    constructor
    · simp [XAttrs.next, hd]
    · simp [XAttrs.size_hint, h]

/-- C9 witness: the invariant theorem applied at concrete states — fresh
construction, a successful step from cursor `0` on `[97, 0, 98, 0]`, and
the exhausted state with cursor at the buffer end. -/
theorem offset_invariant_witness :
    (list_fd_result [97, 0]).offset = 0 ∧
    (XAttrs.mk [97, 0, 98, 0] 2).offset ≤ (XAttrs.mk [97, 0, 98, 0] 2).data.length ∧
    (XAttrs.mk [97, 0] 2).next = some (none, XAttrs.mk [97, 0] 2) := by
  refine ⟨(offset_invariant.1 [97, 0]).1, ?_, ?_⟩
  · exact (offset_invariant.2.1 (XAttrs.mk [97, 0, 98, 0] 0)
      (XAttrs.mk [97, 0, 98, 0] 2) [97] rfl).2
  · exact (offset_invariant.2.2.2 (XAttrs.mk [97, 0] 2) rfl).1

/-- C4: `clone` yields an iterator with byte-for-byte equal buffer and the
same cursor; its remaining name sequence equals the original's, and this
stays true after any number of independent `next` steps on either side —
in the pure model a deep copy is the identical value, so stepping one
iterator cannot alter the other. -/
theorem xattrs_clone_independent (x : XAttrs) (k : Nat) :
    (x.clone).data = x.data ∧ (x.clone).offset = x.offset ∧
    (x.clone).remNames = x.remNames ∧
    advanceN k (x.clone) = advanceN k x ∧
    (advanceN k (x.clone)).remNames = (advanceN k x).remNames :=
  ⟨rfl, rfl, rfl, rfl, rfl⟩

/-- C10 evidence: `clone_from` on a state with a non-empty old buffer does
not reproduce `clone` — the old bytes survive in front of the copied ones,
because the reused vector is never cleared before `extend`. -/
theorem clone_from_appends_data :
    XAttrs.clone_from (XAttrs.mk [1, 0] 2) (XAttrs.mk [2, 0] 0)
      = XAttrs.mk [1, 0, 2, 0] 0 ∧
    (XAttrs.mk [2, 0] 0).clone = XAttrs.mk [2, 0] 0 ∧
    XAttrs.clone_from (XAttrs.mk [1, 0] 2) (XAttrs.mk [2, 0] 0)
      ≠ (XAttrs.mk [2, 0] 0).clone := by
  refine ⟨rfl, rfl, ?_⟩
  decide

/-- C1: the retry primitive terminates for every operation — the fuelled
loop never exhausts its fuel (it returns a result or fails at the ceiling)
— and on a mock operation whose reported size never stabilizes (always one
past the capacity) it fails with the bounded-growth sizing error instead of
retrying indefinitely. -/
theorem allocate_loop_terminates :
    (∀ op : Nat → Nat → CallResult, (allocate_loop op).isSome = true) ∧
    allocate_loop (fun _ c => CallResult.ok (c + 1))
      = some LoopResult.sizeError := by
  constructor
  · intro op
    apply allocLoopAux_isSome
    omega
  · rfl

/-- C5: setting an attribute and immediately getting it back, with no
interleaving mutation, returns exactly the value written — for every store,
name and byte string, including the empty value. -/
theorem set_get_roundtrip (s : XStore) (name v : List Nat) :
    get_fd (set_fd s name v) name = Except.ok v := by
  simp [get_fd, set_fd]

/-- C6: `get` and `remove` fail with NotFound exactly when the name is
absent — an absent name makes both fail with NotFound (never a panic), a
successful `remove` leaves `get` on that name failing with NotFound, and a
present name makes `get` succeed with the stored value. -/
theorem absent_name_not_found (s : XStore) (name : List Nat) :
    (s name = none →
      get_fd s name = Except.error XErr.notFound ∧
      remove_fd s name = Except.error XErr.notFound) ∧
    (∀ s2, remove_fd s name = Except.ok s2 →
      get_fd s2 name = Except.error XErr.notFound) ∧
    (∀ v, s name = some v → get_fd s name = Except.ok v) := by
  refine ⟨?_, ?_, ?_⟩
  · intro h
    constructor
    · simp [get_fd, h]
    · simp [remove_fd, h]
  · intro s2 h
    rw [remove_fd] at h
    cases hs : s name with
    | none => rw [hs] at h; simp at h
    | some v =>
      rw [hs] at h
      simp at h
      rw [← h]
      simp [get_fd]
  · intro v h
    simp [get_fd, h]

/-- C6 witness: on the empty store `get` of the name `[1]` is NotFound, and
after removing `[1]` from a store holding it, `get` of `[1]` is NotFound. -/
theorem absent_name_not_found_witness :
    get_fd (fun _ => none : XStore) [1] = Except.error XErr.notFound ∧
    get_fd (fun n => if n = [1] then none else some [7] : XStore) [1]
      = Except.error XErr.notFound :=
  ⟨((absent_name_not_found (fun _ => none) [1]).1 rfl).1,
   (absent_name_not_found (fun _ => some [7]) [1]).2.1 _ rfl⟩

/-- C3: only the path-mode `get` closure branches: on macOS with an empty
probe buffer it issues the dedicated size-only direct call (null buffer,
zero length, no-follow flag) and returns its reported size, or the OS error
when the return is negative; with a non-empty buffer, or on the other
platform, it is exactly the plain `lgetxattr` step; and every other
operation issues the same call on both platforms. -/
theorem get_path_empty_probe_branch (directRet : Int) (errno : Nat)
    (lgetRes : Except XErr Nat) (bufLen : Nat) :
    (get_path_step_call true 0 = RawCall.getxattr_direct true 0 true) ∧
    (directRet < 0 →
      get_path_step true directRet errno lgetRes 0
        = Except.error (XErr.other errno)) ∧
    (0 ≤ directRet →
      get_path_step true directRet errno lgetRes 0 = Except.ok directRet.toNat) ∧
    (bufLen ≠ 0 →
      get_path_step_call true bufLen = RawCall.lgetxattr bufLen ∧
      get_path_step true directRet errno lgetRes bufLen = lgetRes) ∧
    (get_path_step_call false bufLen = RawCall.lgetxattr bufLen ∧
      get_path_step false directRet errno lgetRes bufLen = lgetRes) ∧
    (∀ m m2 : Bool,
      set_path_call m = set_path_call m2 ∧
      remove_path_call m = remove_path_call m2 ∧
      list_path_step_call m bufLen = list_path_step_call m2 bufLen ∧
      get_fd_step_call m bufLen = get_fd_step_call m2 bufLen ∧
      set_fd_call m = set_fd_call m2 ∧
      remove_fd_call m = remove_fd_call m2 ∧
      list_fd_step_call m bufLen = list_fd_step_call m2 bufLen) := by
  refine ⟨rfl, ?_, ?_, ?_, ⟨rfl, rfl⟩, ?_⟩
  · intro h
    simp [get_path_step, h]
  · intro h
    rw [get_path_step]
    have hneg : ¬directRet < 0 := by omega
    simp [hneg]
  · intro h
    have hb : (bufLen == 0) = false := by simp [h]
    constructor
    · simp [get_path_step_call, hb]
    · simp [get_path_step, hb]
  · intro m m2
    exact ⟨rfl, rfl, rfl, rfl, rfl, rfl, rfl⟩

/-- C3 witness: concrete evaluations of the three hypothesised branches —
the direct call failing with errno 13, the direct call reporting size 4,
and a non-empty buffer passing through the `lgetxattr` result. -/
theorem get_path_empty_probe_branch_witness :
    get_path_step true (-1) 13 (Except.ok 5) 0 = Except.error (XErr.other 13) ∧
    get_path_step true 4 13 (Except.ok 5) 0 = Except.ok 4 ∧
    get_path_step true 7 13 (Except.ok 5) 3 = Except.ok 5 :=
  ⟨(get_path_empty_probe_branch (-1) 13 (Except.ok 5) 3).2.1 (by decide),
   (get_path_empty_probe_branch 4 13 (Except.ok 5) 3).2.2.1 (by decide),
   ((get_path_empty_probe_branch 7 13 (Except.ok 5) 3).2.2.2.1 (by decide)).2⟩

/-- C7: every raw call a path-based accessor can issue — `get_path` in both
its branches (including the macOS direct size-only call), `set_path`,
`remove_path` and `list_path` — carries no-follow semantics: it never
resolves a symbolic link. -/
theorem path_accessors_no_follow (m : Bool) (bufLen : Nat) :
    follows_symlinks (get_path_step_call m bufLen) = false ∧
    follows_symlinks (set_path_call m) = false ∧
    follows_symlinks (remove_path_call m) = false ∧
    follows_symlinks (list_path_step_call m bufLen) = false := by
  refine ⟨?_, rfl, rfl, rfl⟩
  cases m with
  | false => rfl
  | true =>
    cases hb : (bufLen == 0) with
    | false => simp [get_path_step_call, follows_symlinks, hb]
    | true => simp [get_path_step_call, follows_symlinks, hb]
